import Mathlib

/-!
Verification development for the batching worker pool of
`pkg/worker/worker.go` (repository bogi-lyceya-44/common).

The Go source is shallowly embedded as follows.

Worker loop (`work`, worker.go lines 63-102): one worker owns a private
`batch` and a periodic idle ticker.  Its `select` has three branches —
ticker fired, item received (with the channel-closed sub-case), and epoch
context cancelled.  Each branch becomes a pure step function
`WState → WState × List Flush`, where a `Flush` records one call of the
user callback `process(flushCtx, batch)`: the context it was given, the
cause (which select branch produced it), and the items delivered.

Pool (`WorkerPool`): `PoolState` holds the shared input queue (the
buffered channel), the workers of the current epoch, the cancellation and
channel-closed flags, the flushes performed so far, and the list of items
successfully enqueued by `Send`.  An execution is a list of scheduler
`Action`s folded over `stepPool`; actions whose guard is not enabled in Go
(receiving from an empty queue, a full queue on `Send`, observing a
cancellation that was never signalled, ...) are no-ops, so every list of
actions denotes a possible interleaving.

`New` (lines 25-41), the `Stop`/`start` lifecycle around `sync.Once` and
`sync.WaitGroup` (lines 43-61 and 104-114), and the Go-slice backing array
reused by `flush` (lines 67-76 and 88-93) are embedded separately below.
-/

namespace Worker

/-- Context handed to a flush: the cancellable per-epoch context derived in
`start`, or `context.Background()` used by the shutdown paths. -/
inductive FlushCtx where
  | epoch
  | background
deriving DecidableEq, Repr

/-- Whether the shutdown signal (the `cancel` stored by `start` and called
by `Stop`) cancels the given context: it cancels the epoch context and
never cancels `context.Background()`. -/
def shutdownCancels : FlushCtx → Bool
  | FlushCtx.epoch => true
  | FlushCtx.background => false

/-- Which `select` branch of `work` produced a flush. -/
inductive Cause where
  | timer
  | full
  | closed
  | cancel
deriving DecidableEq, Repr

/-- One call of the user callback `process`: the context passed, the branch
that caused it, and the items of the batch at call time. -/
structure Flush (T : Type) where
  cause : Cause
  fctx : FlushCtx
  items : List T
deriving DecidableEq, Repr

/-- Private state of one worker goroutine running `work`: its batch, the
remaining time of its idle ticker, and whether the loop has returned. -/
structure WState (T : Type) where
  batch : List T
  tickerRem : Nat
  done : Bool
deriving DecidableEq, Repr

variable {T : Type}

/-- The `flush` closure of `work` (lines 69-76): a no-op on an empty batch,
otherwise it calls `process(flushCtx, batch)` and clears the batch. -/
def flushBatch (c : Cause) (fc : FlushCtx) (w : WState T) :
    WState T × List (Flush T) :=
  if w.batch.length = 0 then (w, [])
  else ({ w with batch := [] }, [⟨c, fc, w.batch⟩])

/-- The `<-ticker.C` branch (lines 80-81): flush with the epoch context;
the periodic ticker re-arms for another `flushTimeout`. -/
def workTimer (ft : Nat) (w : WState T) : WState T × List (Flush T) :=
  if w.done then (w, [])
  else
    let r := flushBatch Cause.timer FlushCtx.epoch w
    ({ r.1 with tickerRem := ft }, r.2)

/-- The `item, ok := <-w.input` branch with `ok = true` (lines 88-93):
reset the idle ticker to `flushTimeout`, append the item, and flush with
the epoch context if the batch has reached `batchSize`. -/
def workRecv (bs ft : Nat) (x : T) (w : WState T) : WState T × List (Flush T) :=
  if w.done then (w, [])
  else
    let w1 : WState T := { w with tickerRem := ft, batch := w.batch ++ [x] }
    if bs ≤ w1.batch.length then flushBatch Cause.full FlushCtx.epoch w1
    else (w1, [])

/-- The `ok = false` sub-case of the receive branch (lines 83-86): the
input channel was closed and drained, so flush with `context.Background()`
and return from the loop. -/
def workClosed (w : WState T) : WState T × List (Flush T) :=
  if w.done then (w, [])
  else
    let r := flushBatch Cause.closed FlushCtx.background w
    ({ r.1 with done := true }, r.2)

/-- The `<-ctx.Done()` branch (lines 94-99): flush the leftovers with
`context.Background()` (the epoch context is already done) and return. -/
def workCancel (w : WState T) : WState T × List (Flush T) :=
  if w.done then (w, [])
  else
    let r := flushBatch Cause.cancel FlushCtx.background w
    ({ r.1 with done := true }, r.2)

/-- Apply a per-worker step to the worker at index `i`, leaving the other
workers untouched; out of range, nothing happens. -/
def stepWorkerAt (ws : List (WState T)) (i : Nat)
    (g : WState T → WState T × List (Flush T)) :
    List (WState T) × List (Flush T) :=
  match ws, i with
  | [], _ => ([], [])
  | w :: rest, 0 => ((g w).1 :: rest, (g w).2)
  | w :: rest, Nat.succ j =>
    let r := stepWorkerAt rest j g
    (w :: r.1, r.2)

/-- Immutable configuration stored by `New` (worker.go lines 25-41), with
`flushTimeout` in abstract time units. -/
structure Config where
  inputBufferSize : Nat
  workerCount : Nat
  batchSize : Nat
  flushTimeout : Nat
deriving DecidableEq, Repr

/-- Global state of one epoch of the pool: the buffered input channel, the
workers, the cancellation and channel-closed flags, the flushes performed
so far, and the items successfully enqueued by `Send`. -/
structure PoolState (T : Type) where
  queue : List T
  workers : List (WState T)
  cancelled : Bool
  closed : Bool
  flushes : List (Flush T)
  sent : List T
deriving DecidableEq, Repr

/-- Scheduler actions: one Go-level event of the pool each.  `send` is a
producer's `Send` completing; `deliver i` is worker `i` receiving the head
of the queue; `timerFire i` is worker `i`'s ticker firing; `cancelSig` is
`Stop` calling the epoch's `cancel`; `observeCancel i` is worker `i`
taking the `ctx.Done()` branch; `closeInput` / `observeClosed i` model the
channel-closed path kept for completeness. -/
inductive Action (T : Type) where
  | send (x : T)
  | deliver (i : Nat)
  | timerFire (i : Nat)
  | observeCancel (i : Nat)
  | observeClosed (i : Nat)
  | cancelSig
  | closeInput
deriving DecidableEq, Repr

/-- Default worker used by out-of-range lookups. -/
def w0 : WState T := ⟨[], 0, false⟩

/-- The worker at index `i` (defaulting out of range). -/
def getW (ws : List (WState T)) (i : Nat) : WState T :=
  ws.getD i w0

/-- One scheduler step.  A step whose Go-level guard is not enabled (full
queue on send, empty queue or exited worker on deliver, cancellation not
yet signalled, ...) leaves the state unchanged: it could not happen. -/
def stepPool (cfg : Config) (p : PoolState T) : Action T → PoolState T
  | Action.send x =>
    if p.closed then p
    else if p.queue.length < cfg.inputBufferSize then
      { p with queue := p.queue ++ [x], sent := p.sent ++ [x] }
    else p
  | Action.deliver i =>
    match p.queue with
    | [] => p
    | x :: rest =>
      if i < p.workers.length ∧ (getW p.workers i).done = false then
        let r := stepWorkerAt p.workers i (workRecv cfg.batchSize cfg.flushTimeout x)
        { p with queue := rest, workers := r.1, flushes := p.flushes ++ r.2 }
      else p
  | Action.timerFire i =>
    let r := stepWorkerAt p.workers i (workTimer cfg.flushTimeout)
    { p with workers := r.1, flushes := p.flushes ++ r.2 }
  | Action.observeCancel i =>
    if p.cancelled then
      let r := stepWorkerAt p.workers i workCancel
      { p with workers := r.1, flushes := p.flushes ++ r.2 }
    else p
  | Action.observeClosed i =>
    if p.closed ∧ p.queue.length = 0 then
      let r := stepWorkerAt p.workers i workClosed
      { p with workers := r.1, flushes := p.flushes ++ r.2 }
    else p
  | Action.cancelSig => { p with cancelled := true }
  | Action.closeInput => { p with closed := true }

/-- Run a list of scheduler actions. -/
def runPool (cfg : Config) (p : PoolState T) : List (Action T) → PoolState T
  | [] => p
  | a :: acts => runPool cfg (stepPool cfg p a) acts

/-- Worker state as `work` sets it up (lines 64-67): empty batch with the
ticker armed to `flushTimeout`. -/
def initWorker (cfg : Config) : WState T :=
  ⟨[], cfg.flushTimeout, false⟩

/-- The pool right after `Start` launched the epoch's workers (lines
47-61): empty queue, `workerCount` fresh workers, nothing signalled. -/
def initPool (T : Type) (cfg : Config) : PoolState T :=
  ⟨[], List.replicate cfg.workerCount (initWorker cfg), false, false, [], []⟩

/-- Stop has completed for this pool state: cancellation was signalled and
`wg.Wait()` has returned because every worker loop exited. -/
def stopDone (p : PoolState T) : Bool :=
  p.cancelled && p.workers.all (fun w => w.done)

/-- The struct literal `New` returns (worker.go lines 31-40), with the Go
`int` and `time.Duration` arguments kept as integers.  Pointer-valued
fields are abstracted by generation numbers: `onceGen` / `wgGen` identify
the `&sync.Once{}` / `&sync.WaitGroup{}` allocated here, and `cancelIsNil`
records that the `cancel` field is left at its zero value. -/
structure WorkerPool where
  inputBufferSize : Int
  workerCount : Int
  batchSize : Int
  flushTimeout : Int
  cancelIsNil : Bool
  onceGen : Nat
  wgGen : Nat
deriving DecidableEq, Repr

/-- The constructor `New` (lines 25-41).  Its body is a single struct
literal: every argument is stored verbatim, nothing is checked or clamped.
The only way it can fail is the runtime fault of `make(chan T, n)` on a
negative buffer size, modelled as `none`. -/
def New (inputBufferSize workerCount batchSize flushTimeout : Int) :
    Option WorkerPool :=
  if inputBufferSize < 0 then none
  else some ⟨inputBufferSize, workerCount, batchSize, flushTimeout, true, 0, 0⟩

/-- Modelled from the spec (claim C5's reading of §4.1/§7): a constructor
that rejects invalid configuration fail-fast — `workerCount ≥ 1`,
`batchSize ≥ 1`, `flushTimeout > 0` — instead of accepting it.  This is
the claim's version, to be compared with `New` above. -/
def NewChecked (inputBufferSize workerCount batchSize flushTimeout : Int) :
    Except String WorkerPool :=
  if workerCount < 1 ∨ batchSize < 1 ∨ flushTimeout ≤ 0 then
    Except.error "worker pool: invalid configuration"
  else
    match New inputBufferSize workerCount batchSize flushTimeout with
    | none => Except.error "worker pool: negative input buffer size"
    | some p => Except.ok p

/-- Lifecycle view of one pool across epochs, abstracting the pointer
identities of its synchronization primitives: `onceGen` identifies the
current `sync.Once` object, `wgGen` the `sync.WaitGroup`, `cancelId` the
stored `context.CancelFunc` (`none` while nil), with `nextCancelId` the
supply of fresh handles; `activeWorkers` is the WaitGroup counter. -/
structure LifeState where
  onceGen : Nat
  onceUsed : Bool
  wgGen : Nat
  cancelId : Option Nat
  nextCancelId : Nat
  activeWorkers : Nat
deriving DecidableEq, Repr

/-- The body of `start` (lines 47-61): `once.Do` runs the closure only if
the current `sync.Once` is unused — derive a fresh cancellable context,
store its cancel handle, and add `workerCount` goroutines to the
WaitGroup.  The public `Start` merely runs this asynchronously. -/
def startEpoch (workerCount : Nat) (s : LifeState) : LifeState :=
  if s.onceUsed then s
  else
    { s with
      onceUsed := true
      cancelId := some s.nextCancelId
      nextCancelId := s.nextCancelId + 1
      activeWorkers := s.activeWorkers + workerCount }

/-- The method `Stop` (lines 104-114): call `cancel` if non-nil (the
signal itself lives in the pool-run model), `wg.Wait()` until the worker
count is zero, then replace `once` by a fresh `&sync.Once{}`.  The
WaitGroup and the stored cancel handle are not touched. -/
def stopLife (s : LifeState) : LifeState :=
  { s with
    activeWorkers := 0
    onceGen := s.onceGen + 1
    onceUsed := false }

/-- A Go slice's backing array together with the current length, for the
batch of one worker: `make([]T, 0, batchSize)` at line 67 allocates the
array once, and since the batch length never exceeds `batchSize`, no
append ever reallocates — every slice of this batch aliases `backing`. -/
structure GoBuf (T : Type) where
  backing : List T
  len : Nat
deriving DecidableEq, Repr

/-- What a slice header of length `n` over the batch's backing array reads
at the current time. -/
def view (b : GoBuf T) (n : Nat) : List T :=
  b.backing.take n

/-- The in-place write of `batch = append(batch, item)` (line 89) while
`len < cap`: store into cell `len` of the same backing array. -/
def bufAppend (b : GoBuf T) (x : T) : GoBuf T :=
  ⟨b.backing.set b.len x, b.len + 1⟩

/-- The statement `batch = batch[:0]` of `flush` (line 75): the length
drops to zero, the backing array and its contents stay. -/
def bufTruncate (b : GoBuf T) : GoBuf T :=
  ⟨b.backing, 0⟩

/-- The item-received branch (lines 88-93) at the backing-array level:
append, and if the batch reached `batchSize`, `flush` passes the slice
header `(backing, len)` to `process` (returned here as the delivered
length) and then truncates in place. -/
def recvBuf (bs : Nat) (b : GoBuf T) (x : T) : GoBuf T × Option Nat :=
  let b1 := bufAppend b x
  if bs ≤ b1.len then (bufTruncate b1, some b1.len)
  else (b1, none)

/-- Multiset of items currently held in the private batches. -/
def batchMass (ws : List (WState T)) : Multiset T :=
  (ws.map fun w => (w.batch : Multiset T)).sum

/-- Multiset of all items ever delivered to `process`. -/
def flushMass (fs : List (Flush T)) : Multiset T :=
  (fs.map fun f => (f.items : Multiset T)).sum

/-- Every item currently inside the pool or already delivered: queue,
private batches, and flushed items together. -/
def poolMass (p : PoolState T) : Multiset T :=
  (p.queue : Multiset T) + batchMass p.workers + flushMass p.flushes

/-- Size invariant of the worker loop for `batchSize = bs`: at every
event-wait point each private batch holds strictly fewer than `bs` items,
a batch-full flush delivered exactly `bs` items, and every other flush
delivered between 1 and `bs - 1` items. -/
def SizeInv (bs : Nat) (p : PoolState T) : Prop :=
  (∀ w ∈ p.workers, w.batch.length < bs) ∧
  ∀ f ∈ p.flushes,
    (f.cause = Cause.full → f.items.length = bs) ∧
    (f.cause ≠ Cause.full → 1 ≤ f.items.length ∧ f.items.length + 1 ≤ bs)

/-- Example configuration: buffer 4, one worker, batch size 10, timeout 5. -/
def exCfg : Config := ⟨4, 1, 10, 5⟩

/-- Example configuration: buffer 4, one worker, batch size 2, timeout 9. -/
def exCfg2 : Config := ⟨4, 1, 2, 9⟩

/-- A send racing with shutdown: the item is enqueued, `Stop` cancels, and
the worker observes cancellation before ever receiving the item. -/
def actsLost : List (Action Nat) :=
  [Action.send 7, Action.cancelSig, Action.observeCancel 0]

/-- Two items received by the worker, then shutdown: the final flush
drains the private batch. -/
def actsDrain : List (Action Nat) :=
  [Action.send 1, Action.send 2, Action.deliver 0, Action.deliver 0,
   Action.cancelSig, Action.observeCancel 0]

/-- Two items received with batch size 2: the second receive triggers a
batch-full flush. -/
def actsFull : List (Action Nat) :=
  [Action.send 1, Action.send 2, Action.deliver 0, Action.deliver 0]

/-- One item received, then the idle ticker fires. -/
def actsTimer : List (Action Nat) :=
  [Action.send 5, Action.deliver 0, Action.timerFire 0]

/-- A cancelled pool whose single worker still holds item 3. -/
def exPoolC2 : PoolState Nat :=
  ⟨[], [⟨[3], 5, false⟩], true, false, [], [3]⟩

/-- A pool about to deliver item 5 to a worker already holding item 4. -/
def exPoolC7 : PoolState Nat :=
  ⟨[5], [⟨[4], 9, false⟩], false, false, [], [4, 5]⟩

/-- Example lifecycle state: epoch started and running. -/
def exLife : LifeState := ⟨0, true, 0, some 0, 1, 2⟩

/-- Example lifecycle state: freshly constructed, never started. -/
def exLife0 : LifeState := ⟨0, false, 0, none, 0, 0⟩

end Worker

namespace Worker

variable {T : Type}

theorem runPool_nil (cfg : Config) (p : PoolState T) : runPool cfg p [] = p := rfl

theorem runPool_cons (cfg : Config) (p : PoolState T) (a : Action T)
    (acts : List (Action T)) :
    runPool cfg p (a :: acts) = runPool cfg (stepPool cfg p a) acts := rfl

theorem stepWorkerAt_out (g : WState T → WState T × List (Flush T)) :
    ∀ (ws : List (WState T)) (i : Nat), ws.length ≤ i →
      stepWorkerAt ws i g = (ws, [])
  | [], _, _ => rfl
  | _ :: _, 0, h => absurd h (by simp)
  | w :: rest, Nat.succ j, h => by
    have hr := stepWorkerAt_out g rest j (by simpa using h)
    simp [stepWorkerAt, hr]

theorem stepWorkerAt_length (g : WState T → WState T × List (Flush T)) :
    ∀ (ws : List (WState T)) (i : Nat),
      (stepWorkerAt ws i g).1.length = ws.length
  | [], _ => rfl
  | _ :: _, 0 => by simp [stepWorkerAt]
  | w :: rest, Nat.succ j => by
    simp [stepWorkerAt, stepWorkerAt_length g rest j]

theorem getW_stepWorkerAt_self (g : WState T → WState T × List (Flush T)) :
    ∀ (ws : List (WState T)) (i : Nat), i < ws.length →
      getW (stepWorkerAt ws i g).1 i = (g (getW ws i)).1
  | [], i, h => absurd h (by simp)
  | w :: rest, 0, _ => by simp [stepWorkerAt, getW]
  | w :: rest, Nat.succ j, h => by
    have hr := getW_stepWorkerAt_self g rest j (by simpa using h)
    simpa [stepWorkerAt, getW] using hr

theorem getW_stepWorkerAt_other (g : WState T → WState T × List (Flush T)) :
    ∀ (ws : List (WState T)) (i j : Nat), j ≠ i →
      getW (stepWorkerAt ws i g).1 j = getW ws j
  | [], _, _, _ => by simp [stepWorkerAt]
  | w :: rest, 0, 0, h => absurd rfl h
  | w :: rest, 0, Nat.succ j, _ => by simp [stepWorkerAt, getW]
  | w :: rest, Nat.succ i, 0, _ => by simp [stepWorkerAt, getW]
  | w :: rest, Nat.succ i, Nat.succ j, h => by
    have hr := getW_stepWorkerAt_other g rest i j (fun e => h (by simp [e]))
    simpa [stepWorkerAt, getW] using hr

theorem stepWorkerAt_flushes (g : WState T → WState T × List (Flush T)) :
    ∀ (ws : List (WState T)) (i : Nat), i < ws.length →
      (stepWorkerAt ws i g).2 = (g (getW ws i)).2
  | [], i, h => absurd h (by simp)
  | w :: rest, 0, _ => by simp [stepWorkerAt, getW]
  | w :: rest, Nat.succ j, h => by
    have hr := stepWorkerAt_flushes g rest j (by simpa using h)
    simpa [stepWorkerAt, getW] using hr

theorem mem_stepWorkerAt (g : WState T → WState T × List (Flush T)) :
    ∀ (ws : List (WState T)) (i : Nat) (w : WState T),
      w ∈ (stepWorkerAt ws i g).1 → w ∈ ws ∨ ∃ u ∈ ws, w = (g u).1
  | [], _, _, h => by simp [stepWorkerAt] at h
  | u :: rest, 0, w, h => by
    rcases (by simpa [stepWorkerAt] using h : w = (g u).1 ∨ w ∈ rest) with h1 | h1
    · exact Or.inr ⟨u, by simp, h1⟩
    · exact Or.inl (by simp [h1])
  | u :: rest, Nat.succ j, w, h => by
    rcases (by simpa [stepWorkerAt] using h :
        w = u ∨ w ∈ (stepWorkerAt rest j g).1) with h1 | h1
    · exact Or.inl (by simp [h1])
    · rcases mem_stepWorkerAt g rest j w h1 with h2 | ⟨v, hv, he⟩
      · exact Or.inl (by simp [h2])
      · exact Or.inr ⟨v, by simp [hv], he⟩

theorem batchMass_nil : batchMass ([] : List (WState T)) = 0 := rfl

theorem batchMass_cons (w : WState T) (ws : List (WState T)) :
    batchMass (w :: ws) = (w.batch : Multiset T) + batchMass ws := by
  simp [batchMass]

theorem flushMass_nil : flushMass ([] : List (Flush T)) = 0 := rfl

theorem flushMass_append (l1 l2 : List (Flush T)) :
    flushMass (l1 ++ l2) = flushMass l1 + flushMass l2 := by
  simp [flushMass]

theorem flushBatch_mass (c : Cause) (fc : FlushCtx) (w : WState T) :
    ((flushBatch c fc w).1.batch : Multiset T) + flushMass (flushBatch c fc w).2
      = (w.batch : Multiset T) := by
  unfold flushBatch
  split
  · simp [flushMass]
  · simp [flushMass]

theorem workTimer_mass (ft : Nat) (w : WState T) :
    ((workTimer ft w).1.batch : Multiset T) + flushMass (workTimer ft w).2
      = (w.batch : Multiset T) := by
  unfold workTimer
  split
  · simp [flushMass]
  · simpa using flushBatch_mass Cause.timer FlushCtx.epoch w

theorem workCancel_mass (w : WState T) :
    ((workCancel w).1.batch : Multiset T) + flushMass (workCancel w).2
      = (w.batch : Multiset T) := by
  unfold workCancel
  split
  · simp [flushMass]
  · simpa using flushBatch_mass Cause.cancel FlushCtx.background w

theorem workClosed_mass (w : WState T) :
    ((workClosed w).1.batch : Multiset T) + flushMass (workClosed w).2
      = (w.batch : Multiset T) := by
  unfold workClosed
  split
  · simp [flushMass]
  · simpa using flushBatch_mass Cause.closed FlushCtx.background w

theorem workRecv_mass (bs ft : Nat) (x : T) (w : WState T) (h : w.done = false) :
    ((workRecv bs ft x w).1.batch : Multiset T) + flushMass (workRecv bs ft x w).2
      = (w.batch : Multiset T) + {x} := by
  unfold workRecv
  rw [h]
  simp only [Bool.false_eq_true, if_false]
  split
  · rw [flushBatch_mass Cause.full FlushCtx.epoch, ← Multiset.coe_add,
      Multiset.coe_singleton]
  · simp [flushMass, ← Multiset.coe_add, Multiset.coe_singleton]

theorem mass_stepWorkerAt (g : WState T → WState T × List (Flush T)) (d : Multiset T) :
    ∀ (ws : List (WState T)) (i : Nat), i < ws.length →
      ((g (getW ws i)).1.batch : Multiset T) + flushMass (g (getW ws i)).2
          = ((getW ws i).batch : Multiset T) + d →
      batchMass (stepWorkerAt ws i g).1 + flushMass (stepWorkerAt ws i g).2
        = batchMass ws + d
  | [], i, h, _ => absurd h (by simp)
  | w :: rest, 0, _, hg => by
    have hg1 : ((g w).1.batch : Multiset T) + flushMass (g w).2
        = (w.batch : Multiset T) + d := by simpa [getW] using hg
    simp only [stepWorkerAt, batchMass_cons]
    rw [add_right_comm, hg1, add_right_comm]
  | w :: rest, Nat.succ j, h, hg => by
    have hg1 := (by simpa [getW] using hg :
      ((g (getW rest j)).1.batch : Multiset T) + flushMass (g (getW rest j)).2
        = ((getW rest j).batch : Multiset T) + d)
    have ih := mass_stepWorkerAt g d rest j (by simpa using h) hg1
    simp only [stepWorkerAt, batchMass_cons]
    rw [add_assoc, ih, ← add_assoc]

theorem poolMass_update (p : PoolState T) (ws : List (WState T))
    (fs : List (Flush T)) :
    poolMass { p with workers := ws, flushes := p.flushes ++ fs }
      = (p.queue : Multiset T) + (batchMass ws + flushMass fs)
          + flushMass p.flushes := by
  simp only [poolMass, flushMass_append]
  abel

theorem poolMass_queue_update (p : PoolState T) (q2 : List T)
    (ws : List (WState T)) (fs : List (Flush T)) :
    poolMass { p with queue := q2, workers := ws, flushes := p.flushes ++ fs }
      = (q2 : Multiset T) + (batchMass ws + flushMass fs)
          + flushMass p.flushes := by
  simp only [poolMass, flushMass_append]
  abel

theorem stepPool_mass (cfg : Config) (p : PoolState T) (a : Action T)
    (h : poolMass p = (p.sent : Multiset T)) :
    poolMass (stepPool cfg p a) = ((stepPool cfg p a).sent : Multiset T) := by
  cases a with
  | send x =>
    simp only [stepPool]
    split
    · exact h
    split
    · simp only [poolMass] at h ⊢
      rw [← Multiset.coe_add, ← Multiset.coe_add, ← h]
      abel
    · exact h
  | deliver i =>
    simp only [stepPool]
    split
    · exact h
    rename_i x rest hq
    split
    · rename_i hg
      have hm := mass_stepWorkerAt (workRecv cfg.batchSize cfg.flushTimeout x)
        {x} p.workers i hg.1
        (workRecv_mass cfg.batchSize cfg.flushTimeout x (getW p.workers i) hg.2)
      dsimp only
      rw [poolMass_queue_update, hm, ← h]
      have hq2 : ((x :: rest : List T) : Multiset T)
          = {x} + (rest : Multiset T) := by simp
      simp only [poolMass, hq, hq2]
      abel
    · exact h
  | timerFire i =>
    simp only [stepPool]
    by_cases hi : i < p.workers.length
    · have hm := mass_stepWorkerAt (workTimer cfg.flushTimeout) 0 p.workers i hi
        (by rw [workTimer_mass]; simp)
      rw [poolMass_update, hm, ← h]
      simp only [poolMass]
      abel
    · rw [stepWorkerAt_out _ _ _ (Nat.le_of_not_lt hi)]
      simpa [poolMass, flushMass_append, flushMass_nil] using h
  | observeCancel i =>
    simp only [stepPool]
    split
    · by_cases hi : i < p.workers.length
      · have hm := mass_stepWorkerAt workCancel 0 p.workers i hi
          (by rw [workCancel_mass]; simp)
        dsimp only
        rw [poolMass_update, hm, ← h]
        simp only [poolMass]
        abel
      · rw [stepWorkerAt_out _ _ _ (Nat.le_of_not_lt hi)]
        simpa [poolMass, flushMass_append, flushMass_nil] using h
    · exact h
  | observeClosed i =>
    simp only [stepPool]
    split
    · by_cases hi : i < p.workers.length
      · have hm := mass_stepWorkerAt workClosed 0 p.workers i hi
          (by rw [workClosed_mass]; simp)
        dsimp only
        rw [poolMass_update, hm, ← h]
        simp only [poolMass]
        abel
      · rw [stepWorkerAt_out _ _ _ (Nat.le_of_not_lt hi)]
        simpa [poolMass, flushMass_append, flushMass_nil] using h
    · exact h
  | cancelSig => simpa [poolMass] using h
  | closeInput => simpa [poolMass] using h

theorem runPool_mass (cfg : Config) :
    ∀ (acts : List (Action T)) (p : PoolState T),
      poolMass p = (p.sent : Multiset T) →
      poolMass (runPool cfg p acts) = ((runPool cfg p acts).sent : Multiset T)
  | [], _, h => h
  | a :: acts, p, h =>
    runPool_mass cfg acts (stepPool cfg p a) (stepPool_mass cfg p a h)

end Worker

namespace Worker

variable {T : Type}

theorem workRecv_pres (bs ft : Nat) (x : T) (u : WState T)
    (hu : u.done = true → u.batch = []) :
    (workRecv bs ft x u).1.done = true → (workRecv bs ft x u).1.batch = [] := by
  unfold workRecv flushBatch
  by_cases hd : u.done
  · simp only [hd, if_true]
    exact fun _ => hu hd
  · by_cases hb : bs ≤ u.batch.length + 1
    · simp [hd, hb]
    · simp [hd, hb]

theorem workTimer_pres (ft : Nat) (u : WState T)
    (hu : u.done = true → u.batch = []) :
    (workTimer ft u).1.done = true → (workTimer ft u).1.batch = [] := by
  unfold workTimer flushBatch
  by_cases hd : u.done
  · simp only [hd, if_true]
    exact fun _ => hu hd
  · by_cases hl : u.batch.length = 0
    · simp [hd, hl, List.length_eq_zero.mp hl]
    · simp [hd, hl]

theorem workCancel_pres (u : WState T) (hu : u.done = true → u.batch = []) :
    (workCancel u).1.done = true → (workCancel u).1.batch = [] := by
  unfold workCancel flushBatch
  by_cases hd : u.done
  · simp only [hd, if_true]
    exact fun _ => hu hd
  · by_cases hl : u.batch.length = 0
    · simp [hd, hl, List.length_eq_zero.mp hl]
    · simp [hd, hl]

theorem workClosed_pres (u : WState T) (hu : u.done = true → u.batch = []) :
    (workClosed u).1.done = true → (workClosed u).1.batch = [] := by
  unfold workClosed flushBatch
  by_cases hd : u.done
  · simp only [hd, if_true]
    exact fun _ => hu hd
  · by_cases hl : u.batch.length = 0
    · simp [hd, hl, List.length_eq_zero.mp hl]
    · simp [hd, hl]

theorem stepPool_doneEmpty (cfg : Config) (p : PoolState T) (a : Action T)
    (h : ∀ w ∈ p.workers, w.done = true → w.batch = []) :
    ∀ w ∈ (stepPool cfg p a).workers, w.done = true → w.batch = [] := by
  have key : ∀ (g : WState T → WState T × List (Flush T)),
      (∀ u, (u.done = true → u.batch = []) →
        ((g u).1.done = true → (g u).1.batch = [])) →
      ∀ i, ∀ w ∈ (stepWorkerAt p.workers i g).1, w.done = true → w.batch = [] := by
    intro g hg i w hw
    rcases mem_stepWorkerAt g p.workers i w hw with h1 | ⟨u, hu, he⟩
    · exact h w h1
    · exact he ▸ hg u (h u hu)
  cases a with
  | send x =>
    intro w hw
    simp only [stepPool] at hw
    split at hw
    · exact h w hw
    split at hw
    · exact h w hw
    · exact h w hw
  | deliver i =>
    intro w hw
    simp only [stepPool] at hw
    split at hw
    · exact h w hw
    split at hw
    · exact key _ (workRecv_pres cfg.batchSize cfg.flushTimeout _) i w hw
    · exact h w hw
  | timerFire i =>
    intro w hw
    simp only [stepPool] at hw
    exact key _ (workTimer_pres cfg.flushTimeout) i w hw
  | observeCancel i =>
    intro w hw
    simp only [stepPool] at hw
    split at hw
    · exact key _ workCancel_pres i w hw
    · exact h w hw
  | observeClosed i =>
    intro w hw
    simp only [stepPool] at hw
    split at hw
    · exact key _ workClosed_pres i w hw
    · exact h w hw
  | cancelSig => exact h
  | closeInput => exact h

theorem runPool_doneEmpty (cfg : Config) :
    ∀ (acts : List (Action T)) (p : PoolState T),
      (∀ w ∈ p.workers, w.done = true → w.batch = []) →
      ∀ w ∈ (runPool cfg p acts).workers, w.done = true → w.batch = []
  | [], _, h => h
  | a :: acts, p, h =>
    runPool_doneEmpty cfg acts (stepPool cfg p a) (stepPool_doneEmpty cfg p a h)

theorem batchMass_zero (ws : List (WState T)) (h : ∀ w ∈ ws, w.batch = []) :
    batchMass ws = 0 := by
  induction ws with
  | nil => rfl
  | cons w rest ih =>
    rw [batchMass_cons, h w (by simp), ih (fun u hu => h u (by simp [hu]))]
    simp

end Worker

namespace Worker

variable {T : Type}

/-- **C1** (amended).  Conservation of sent items: in any execution in
which every worker loop of the epoch has exited, the multiset of items
successfully enqueued by `Send` equals the items still sitting in the
input queue plus the items delivered to `process` — every item a worker
received was flushed exactly once (no duplication, no loss from a private
batch), but items never picked up from the queue remain there,
unprocessed. -/
theorem worker_sent_accounted (T : Type) (cfg : Config) (acts : List (Action T))
    (h : ∀ w ∈ (runPool cfg (initPool T cfg) acts).workers, w.done = true) :
    ((runPool cfg (initPool T cfg) acts).sent : Multiset T)
      = ((runPool cfg (initPool T cfg) acts).queue : Multiset T)
          + flushMass (runPool cfg (initPool T cfg) acts).flushes := by
  have h0 : poolMass (initPool T cfg) = ((initPool T cfg).sent : Multiset T) := by
    simp [initPool, poolMass, batchMass, flushMass, initWorker]
  have hm := runPool_mass cfg acts (initPool T cfg) h0
  have hd := runPool_doneEmpty cfg acts (initPool T cfg)
    (by intro w hw hdone; simp [initPool, initWorker] at hw; simp [hw])
  have hb : batchMass (runPool cfg (initPool T cfg) acts).workers = 0 :=
    batchMass_zero _ (fun w hw => hd w hw (h w hw))
  rw [← hm]
  simp only [poolMass, hb, add_zero]

/-- **C1**, witness for the amended theorem: both items received by the
worker before shutdown are delivered by the final cancel flush, and the
accounting equation holds. -/
theorem worker_sent_accounted_witness :
    ((runPool exCfg (initPool Nat exCfg) actsDrain).sent : Multiset Nat)
      = ((runPool exCfg (initPool Nat exCfg) actsDrain).queue : Multiset Nat)
          + flushMass (runPool exCfg (initPool Nat exCfg) actsDrain).flushes :=
  worker_sent_accounted Nat exCfg actsDrain (by decide)

/-- **C1**, counterexample to the claim as stated: item 7 is successfully
enqueued by `Send`, `Stop` cancels the epoch, and the worker — whose
`select` may legitimately take the `ctx.Done()` branch while the item is
still buffered in the channel — exits without ever receiving it.  The
pool reaches a completed shutdown (`stopDone`) with the item sent but
never passed to `process`: the union of all batches ([]) differs from the
set of sent items ([7]). -/
theorem worker_item_lost_at_stop :
    (runPool exCfg (initPool Nat exCfg) actsLost).sent = [7] ∧
    (runPool exCfg (initPool Nat exCfg) actsLost).flushes = [] ∧
    (runPool exCfg (initPool Nat exCfg) actsLost).queue = [7] ∧
    stopDone (runPool exCfg (initPool Nat exCfg) actsLost) = true := by
  decide

end Worker

namespace Worker

variable {T : Type}

theorem flushBatch_done (c : Cause) (fc : FlushCtx) (w : WState T) :
    (flushBatch c fc w).1.done = w.done := by
  unfold flushBatch
  split <;> rfl

theorem workTimer_done (ft : Nat) (w : WState T) :
    (workTimer ft w).1.done = w.done := by
  unfold workTimer
  split
  · rfl
  · exact flushBatch_done Cause.timer FlushCtx.epoch w

theorem workRecv_done (bs ft : Nat) (x : T) (w : WState T) :
    (workRecv bs ft x w).1.done = w.done := by
  unfold workRecv
  split
  · rfl
  dsimp only
  split
  · rw [flushBatch_done]
  · rfl

theorem workCancel_done (w : WState T) : (workCancel w).1.done = true := by
  unfold workCancel
  by_cases hd : w.done
  · simp [hd]
  · simp [hd, flushBatch_done]

theorem workClosed_done (w : WState T) : (workClosed w).1.done = true := by
  unfold workClosed
  by_cases hd : w.done
  · simp [hd]
  · simp [hd, flushBatch_done]

theorem stepPool_workers_length (cfg : Config) (p : PoolState T) (a : Action T) :
    (stepPool cfg p a).workers.length = p.workers.length := by
  cases a with
  | send x =>
    simp only [stepPool]
    split
    · rfl
    split <;> rfl
  | deliver i =>
    simp only [stepPool]
    split
    · rfl
    split
    · exact stepWorkerAt_length _ _ _
    · rfl
  | timerFire i =>
    simp only [stepPool]
    exact stepWorkerAt_length _ _ _
  | observeCancel i =>
    simp only [stepPool]
    split
    · exact stepWorkerAt_length _ _ _
    · rfl
  | observeClosed i =>
    simp only [stepPool]
    split
    · exact stepWorkerAt_length _ _ _
    · rfl
  | cancelSig => rfl
  | closeInput => rfl

theorem stepPool_cancelled_mono (cfg : Config) (p : PoolState T) (a : Action T)
    (h : p.cancelled = true) : (stepPool cfg p a).cancelled = true := by
  cases a with
  | send x =>
    simp only [stepPool]
    split
    · exact h
    split <;> exact h
  | deliver i =>
    simp only [stepPool]
    split
    · exact h
    split <;> exact h
  | timerFire i => exact h
  | observeCancel i =>
    simp only [stepPool]
    split <;> exact h
  | observeClosed i =>
    simp only [stepPool]
    split <;> exact h
  | cancelSig => rfl
  | closeInput => exact h

theorem runPool_workers_length (cfg : Config) :
    ∀ (acts : List (Action T)) (p : PoolState T),
      (runPool cfg p acts).workers.length = p.workers.length
  | [], _ => rfl
  | a :: acts, p => by
    rw [runPool_cons, runPool_workers_length cfg acts, stepPool_workers_length]

theorem runPool_cancelled_mono (cfg : Config) :
    ∀ (acts : List (Action T)) (p : PoolState T), p.cancelled = true →
      (runPool cfg p acts).cancelled = true
  | [], _, h => h
  | a :: acts, p, h =>
    runPool_cancelled_mono cfg acts (stepPool cfg p a)
      (stepPool_cancelled_mono cfg p a h)

theorem stepPool_done_mono (cfg : Config) (p : PoolState T) (a : Action T)
    (j : Nat) (h : (getW p.workers j).done = true) :
    (getW (stepPool cfg p a).workers j).done = true := by
  cases a with
  | send x =>
    simp only [stepPool]
    split
    · exact h
    split <;> exact h
  | deliver i =>
    simp only [stepPool]
    split
    · exact h
    rename_i x rest hq
    split
    · rename_i hg
      by_cases hji : j = i
      · subst hji
        exact absurd h (by simp [hg.2])
      · rw [getW_stepWorkerAt_other _ _ _ _ hji]
        exact h
    · exact h
  | timerFire i =>
    simp only [stepPool]
    by_cases hi : i < p.workers.length
    · by_cases hji : j = i
      · subst hji
        rw [getW_stepWorkerAt_self _ _ _ hi, workTimer_done]
        exact h
      · rw [getW_stepWorkerAt_other _ _ _ _ hji]
        exact h
    · rw [stepWorkerAt_out _ _ _ (Nat.le_of_not_lt hi)]
      exact h
  | observeCancel i =>
    simp only [stepPool]
    split
    · by_cases hi : i < p.workers.length
      · by_cases hji : j = i
        · subst hji
          rw [getW_stepWorkerAt_self _ _ _ hi, workCancel_done]
        · rw [getW_stepWorkerAt_other _ _ _ _ hji]
          exact h
      · rw [stepWorkerAt_out _ _ _ (Nat.le_of_not_lt hi)]
        exact h
    · exact h
  | observeClosed i =>
    simp only [stepPool]
    split
    · by_cases hi : i < p.workers.length
      · by_cases hji : j = i
        · subst hji
          rw [getW_stepWorkerAt_self _ _ _ hi, workClosed_done]
        · rw [getW_stepWorkerAt_other _ _ _ _ hji]
          exact h
      · rw [stepWorkerAt_out _ _ _ (Nat.le_of_not_lt hi)]
        exact h
    · exact h
  | cancelSig => exact h
  | closeInput => exact h

theorem stepPool_observeCancel_done (cfg : Config) (p : PoolState T) (i : Nat)
    (hc : p.cancelled = true) (hi : i < p.workers.length) :
    (getW (stepPool cfg p (Action.observeCancel i)).workers i).done = true := by
  simp only [stepPool, hc, if_true]
  rw [getW_stepWorkerAt_self _ _ _ hi, workCancel_done]

end Worker

namespace Worker

variable {T : Type}

theorem runPool_observeCancel_done (cfg : Config) :
    ∀ (l : List Nat) (p : PoolState T), p.cancelled = true →
      ∀ j, j < p.workers.length →
        (j ∈ l ∨ (getW p.workers j).done = true) →
        (getW (runPool cfg p (l.map Action.observeCancel)).workers j).done = true := by
  intro l
  induction l with
  | nil =>
    intro p _ j _ hd
    rcases hd with h | h
    · simp at h
    · exact h
  | cons i rest ih =>
    intro p hc j hj hd
    rw [List.map_cons, runPool_cons]
    have hc1 : (stepPool cfg p (Action.observeCancel i)).cancelled = true :=
      stepPool_cancelled_mono cfg p _ hc
    have hj1 : j < (stepPool cfg p (Action.observeCancel i)).workers.length := by
      rw [stepPool_workers_length]
      exact hj
    apply ih _ hc1 j hj1
    rcases hd with hji | hdone
    · rcases List.mem_cons.mp hji with he | hrest
      · right
        subst he
        exact stepPool_observeCancel_done cfg p j hc hj
      · left
        exact hrest
    · right
      exact stepPool_done_mono cfg p _ j hdone

theorem workCancel_flush_background (u : WState T) :
    ∀ f ∈ (workCancel u).2, f.fctx = FlushCtx.background := by
  unfold workCancel flushBatch
  by_cases hd : u.done
  · simp [hd]
  · by_cases hl : u.batch.length = 0
    · simp [hd, hl]
    · simp [hd, hl]

theorem stepWorkerAt_cancel_background (ws : List (WState T)) (i : Nat) :
    ∀ f ∈ (stepWorkerAt ws i workCancel).2, f.fctx = FlushCtx.background := by
  by_cases hi : i < ws.length
  · rw [stepWorkerAt_flushes _ _ _ hi]
    exact workCancel_flush_background _
  · rw [stepWorkerAt_out _ _ _ (Nat.le_of_not_lt hi)]
    simp

theorem runPool_observeCancel_flushes (cfg : Config) :
    ∀ (l : List Nat) (p : PoolState T), p.cancelled = true →
      ∃ ext, (runPool cfg p (l.map Action.observeCancel)).flushes = p.flushes ++ ext
        ∧ ∀ f ∈ ext, f.fctx = FlushCtx.background := by
  intro l
  induction l with
  | nil =>
    intro p _
    exact ⟨[], by simp [runPool_nil], by simp⟩
  | cons i rest ih =>
    intro p hc
    rw [List.map_cons, runPool_cons]
    obtain ⟨ext, he, hb⟩ := ih (stepPool cfg p (Action.observeCancel i))
      (stepPool_cancelled_mono cfg p _ hc)
    refine ⟨(stepWorkerAt p.workers i workCancel).2 ++ ext, ?_, ?_⟩
    · rw [he]
      simp only [stepPool, hc, if_true]
      rw [List.append_assoc]
    · intro f hf
      rcases List.mem_append.mp hf with h1 | h1
      · exact stepWorkerAt_cancel_background p.workers i f h1
      · exact hb f h1

/-- **C2**.  Once cancellation is signalled, letting every worker of the
epoch take its `ctx.Done()` branch brings the pool to a completed `Stop`:
every worker loop has exited (so `wg.Wait()` — and hence `Stop` — returns),
and every flush performed on the way out was given `context.Background()`,
a context the shutdown signal does not cancel, so the final flush cannot
be pre-empted by the cancellation that triggered it. -/
theorem worker_stop_terminates (cfg : Config) (p : PoolState T)
    (hc : p.cancelled = true) :
    stopDone (runPool cfg p
        ((List.range p.workers.length).map Action.observeCancel)) = true ∧
    ∀ f ∈ (runPool cfg p
        ((List.range p.workers.length).map Action.observeCancel)).flushes.drop
          p.flushes.length,
      f.fctx = FlushCtx.background ∧ shutdownCancels f.fctx = false := by
  constructor
  · unfold stopDone
    rw [Bool.and_eq_true]
    constructor
    · exact runPool_cancelled_mono cfg _ p hc
    · rw [List.all_eq_true]
      intro w hw
      obtain ⟨⟨j, hj⟩, hget⟩ := List.mem_iff_get.mp hw
      have hlen := runPool_workers_length cfg
        ((List.range p.workers.length).map Action.observeCancel) p
      have hjp : j < p.workers.length := hlen ▸ hj
      have hdone := runPool_observeCancel_done cfg (List.range p.workers.length)
        p hc j hjp (Or.inl (List.mem_range.mpr hjp))
      rw [getW, List.getD_eq_get _ _ hj, hget] at hdone
      exact hdone
  · obtain ⟨ext, he, hb⟩ :=
      runPool_observeCancel_flushes cfg (List.range p.workers.length) p hc
    rw [he, List.drop_left]
    intro f hf
    have hfb := hb f hf
    exact ⟨hfb, by rw [hfb]; rfl⟩

/-- **C2**, witness: a cancelled single-worker pool holding item 3 reaches
completed shutdown, and the cancel-path flush it performed was given the
background context. -/
theorem worker_stop_terminates_witness :
    stopDone (runPool exCfg exPoolC2
        ((List.range exPoolC2.workers.length).map Action.observeCancel)) = true ∧
    Flush.fctx ⟨Cause.cancel, FlushCtx.background, ([3] : List Nat)⟩
      = FlushCtx.background :=
  ⟨(worker_stop_terminates exCfg exPoolC2 (by decide)).1,
   ((worker_stop_terminates exCfg exPoolC2 (by decide)).2
      ⟨Cause.cancel, FlushCtx.background, ([3] : List Nat)⟩ (by decide)).1⟩

end Worker

namespace Worker

variable {T : Type}

theorem getW_mem (ws : List (WState T)) (i : Nat) (h : i < ws.length) :
    getW ws i ∈ ws := by
  rw [getW, List.getD_eq_get _ _ h]
  exact List.get_mem ws i h

theorem workTimer_size (bs ft : Nat) (u : WState T) (hbs : 1 ≤ bs)
    (hu : u.batch.length < bs) :
    (workTimer ft u).1.batch.length < bs ∧
    ∀ f ∈ (workTimer ft u).2,
      f.cause = Cause.timer ∧ 1 ≤ f.items.length ∧ f.items.length + 1 ≤ bs := by
  unfold workTimer flushBatch
  by_cases hd : u.done
  · simp [hd, hu]
  · by_cases hl : u.batch.length = 0
    · refine ⟨by simp [hd, hl]; omega, by simp [hd, hl]⟩
    · refine ⟨by simp [hd, hl]; omega, ?_⟩
      intro f hf
      simp only [hd, hl, Bool.false_eq_true, if_false, if_neg hl,
        List.mem_singleton] at hf
      subst hf
      exact ⟨rfl, by simp; omega, by simp; omega⟩

theorem workCancel_size (bs : Nat) (u : WState T) (hbs : 1 ≤ bs)
    (hu : u.batch.length < bs) :
    (workCancel u).1.batch.length < bs ∧
    ∀ f ∈ (workCancel u).2,
      f.cause = Cause.cancel ∧ 1 ≤ f.items.length ∧ f.items.length + 1 ≤ bs := by
  unfold workCancel flushBatch
  by_cases hd : u.done
  · simp [hd, hu]
  · by_cases hl : u.batch.length = 0
    · refine ⟨by simp [hd, hl]; omega, by simp [hd, hl]⟩
    · refine ⟨by simp [hd, hl]; omega, ?_⟩
      intro f hf
      simp only [hd, hl, Bool.false_eq_true, if_false, if_neg hl,
        List.mem_singleton] at hf
      subst hf
      exact ⟨rfl, by simp; omega, by simp; omega⟩

theorem workClosed_size (bs : Nat) (u : WState T) (hbs : 1 ≤ bs)
    (hu : u.batch.length < bs) :
    (workClosed u).1.batch.length < bs ∧
    ∀ f ∈ (workClosed u).2,
      f.cause = Cause.closed ∧ 1 ≤ f.items.length ∧ f.items.length + 1 ≤ bs := by
  unfold workClosed flushBatch
  by_cases hd : u.done
  · simp [hd, hu]
  · by_cases hl : u.batch.length = 0
    · refine ⟨by simp [hd, hl]; omega, by simp [hd, hl]⟩
    · refine ⟨by simp [hd, hl]; omega, ?_⟩
      intro f hf
      simp only [hd, hl, Bool.false_eq_true, if_false, if_neg hl,
        List.mem_singleton] at hf
      subst hf
      exact ⟨rfl, by simp; omega, by simp; omega⟩

theorem workRecv_size (bs ft : Nat) (x : T) (u : WState T)
    (hu : u.batch.length < bs) :
    (workRecv bs ft x u).1.batch.length < bs ∧
    ∀ f ∈ (workRecv bs ft x u).2, f.cause = Cause.full ∧ f.items.length = bs := by
  unfold workRecv flushBatch
  by_cases hd : u.done
  · simp [hd, hu]
  · dsimp only
    by_cases hb : bs ≤ u.batch.length + 1
    · refine ⟨?_, ?_⟩
      · simp [hd, hb]
        omega
      · intro f hf
        simp [hd, hb] at hf
        subst hf
        refine ⟨rfl, ?_⟩
        simp
        omega
    · refine ⟨?_, ?_⟩
      · simp [hd, hb]
        omega
      · intro f hf
        simp [hd, hb] at hf

end Worker

namespace Worker

variable {T : Type}

theorem stepPool_sizeInv (cfg : Config) (p : PoolState T) (a : Action T)
    (hbs : 1 ≤ cfg.batchSize) (h : SizeInv cfg.batchSize p) :
    SizeInv cfg.batchSize (stepPool cfg p a) := by
  obtain ⟨hw, hf⟩ := h
  have key : ∀ (g : WState T → WState T × List (Flush T)),
      (∀ u, u.batch.length < cfg.batchSize →
        (g u).1.batch.length < cfg.batchSize) →
      (∀ u, u.batch.length < cfg.batchSize → ∀ f ∈ (g u).2,
        (f.cause = Cause.full → f.items.length = cfg.batchSize) ∧
        (f.cause ≠ Cause.full →
          1 ≤ f.items.length ∧ f.items.length + 1 ≤ cfg.batchSize)) →
      ∀ i, (∀ w ∈ (stepWorkerAt p.workers i g).1,
              w.batch.length < cfg.batchSize) ∧
        ∀ f ∈ p.flushes ++ (stepWorkerAt p.workers i g).2,
          (f.cause = Cause.full → f.items.length = cfg.batchSize) ∧
          (f.cause ≠ Cause.full →
            1 ≤ f.items.length ∧ f.items.length + 1 ≤ cfg.batchSize) := by
    intro g hg1 hg2 i
    constructor
    · intro w hmem
      rcases mem_stepWorkerAt g p.workers i w hmem with h1 | ⟨u, hu, he⟩
      · exact hw w h1
      · exact he ▸ hg1 u (hw u hu)
    · intro f hmem
      rcases List.mem_append.mp hmem with h1 | h1
      · exact hf f h1
      · by_cases hi : i < p.workers.length
        · rw [stepWorkerAt_flushes _ _ _ hi] at h1
          exact hg2 (getW p.workers i) (hw _ (getW_mem _ _ hi)) f h1
        · rw [stepWorkerAt_out _ _ _ (Nat.le_of_not_lt hi)] at h1
          simp at h1
  cases a with
  | send x =>
    simp only [stepPool]
    split
    · exact ⟨hw, hf⟩
    split
    · exact ⟨hw, hf⟩
    · exact ⟨hw, hf⟩
  | deliver i =>
    simp only [stepPool]
    split
    · exact ⟨hw, hf⟩
    rename_i x rest hq
    split
    · refine key (workRecv cfg.batchSize cfg.flushTimeout x)
        (fun u hu => (workRecv_size cfg.batchSize cfg.flushTimeout x u hu).1)
        (fun u hu f hfm => ?_) i
      obtain ⟨hc2, hlen⟩ :=
        (workRecv_size cfg.batchSize cfg.flushTimeout x u hu).2 f hfm
      exact ⟨fun _ => hlen, fun hne => absurd hc2 hne⟩
    · exact ⟨hw, hf⟩
  | timerFire i =>
    simp only [stepPool]
    refine key (workTimer cfg.flushTimeout)
      (fun u hu => (workTimer_size cfg.batchSize cfg.flushTimeout u hbs hu).1)
      (fun u hu f hfm => ?_) i
    obtain ⟨hc2, hge, hle⟩ :=
      (workTimer_size cfg.batchSize cfg.flushTimeout u hbs hu).2 f hfm
    refine ⟨fun hcf => ?_, fun _ => ⟨hge, hle⟩⟩
    rw [hc2] at hcf
    exact absurd hcf (by decide)
  | observeCancel i =>
    simp only [stepPool]
    split
    · refine key workCancel
        (fun u hu => (workCancel_size cfg.batchSize u hbs hu).1)
        (fun u hu f hfm => ?_) i
      obtain ⟨hc2, hge, hle⟩ := (workCancel_size cfg.batchSize u hbs hu).2 f hfm
      refine ⟨fun hcf => ?_, fun _ => ⟨hge, hle⟩⟩
      rw [hc2] at hcf
      exact absurd hcf (by decide)
    · exact ⟨hw, hf⟩
  | observeClosed i =>
    simp only [stepPool]
    split
    · refine key workClosed
        (fun u hu => (workClosed_size cfg.batchSize u hbs hu).1)
        (fun u hu f hfm => ?_) i
      obtain ⟨hc2, hge, hle⟩ := (workClosed_size cfg.batchSize u hbs hu).2 f hfm
      refine ⟨fun hcf => ?_, fun _ => ⟨hge, hle⟩⟩
      rw [hc2] at hcf
      exact absurd hcf (by decide)
    · exact ⟨hw, hf⟩
  | cancelSig => exact ⟨hw, hf⟩
  | closeInput => exact ⟨hw, hf⟩

theorem runPool_sizeInv (cfg : Config) (hbs : 1 ≤ cfg.batchSize) :
    ∀ (acts : List (Action T)) (p : PoolState T),
      SizeInv cfg.batchSize p → SizeInv cfg.batchSize (runPool cfg p acts)
  | [], _, h => h
  | a :: acts, p, h =>
    runPool_sizeInv cfg hbs acts (stepPool cfg p a)
      (stepPool_sizeInv cfg p a hbs h)

theorem initPool_sizeInv (cfg : Config) (hbs : 1 ≤ cfg.batchSize) :
    SizeInv cfg.batchSize (initPool T cfg) := by
  constructor
  · intro w hw
    simp [initPool, initWorker] at hw
    simp [hw]
    omega
  · intro f hfm
    simp [initPool] at hfm

end Worker

namespace Worker

variable {T : Type}

/-- **C3**.  Bounded batches: for any configuration with `batchSize ≥ 1`
and any execution, no batch handed to `process` holds more than
`batchSize` items, and no worker's private batch ever holds more than
`batchSize` items (at event-wait points it is in fact strictly below;
the bound `batchSize` is reached only transiently, at the instant the
batch-full flush is invoked). -/
theorem worker_bounded_batches (T : Type) (cfg : Config)
    (acts : List (Action T)) (hbs : 1 ≤ cfg.batchSize) :
    (∀ f ∈ (runPool cfg (initPool T cfg) acts).flushes,
        f.items.length ≤ cfg.batchSize) ∧
    ∀ w ∈ (runPool cfg (initPool T cfg) acts).workers,
      w.batch.length ≤ cfg.batchSize := by
  obtain ⟨hw, hf⟩ :=
    runPool_sizeInv cfg hbs acts (initPool T cfg) (initPool_sizeInv cfg hbs)
  constructor
  · intro f hfm
    obtain ⟨h1, h2⟩ := hf f hfm
    by_cases hc : f.cause = Cause.full
    · exact le_of_eq (h1 hc)
    · have := h2 hc
      omega
  · intro w hwm
    exact Nat.le_of_lt (hw w hwm)

/-- **C3**, witness: with `batchSize = 2`, the full-batch flush of items
1, 2 respects the bound. -/
theorem worker_bounded_batches_witness :
    (Flush.items (⟨Cause.full, FlushCtx.epoch, [1, 2]⟩ : Flush Nat)).length
      ≤ exCfg2.batchSize :=
  (worker_bounded_batches Nat exCfg2 actsFull (by decide)).1
    ⟨Cause.full, FlushCtx.epoch, [1, 2]⟩ (by decide)

/-- **C10**.  At every event-wait point the private batch holds strictly
fewer than `batchSize` items, every batch-full flush delivers exactly
`batchSize` items, and every other flush (timer fire, queue closed, or
cancellation) delivers between 1 and `batchSize - 1` items. -/
theorem worker_flush_size_classes (T : Type) (cfg : Config)
    (acts : List (Action T)) (hbs : 1 ≤ cfg.batchSize) :
    (∀ w ∈ (runPool cfg (initPool T cfg) acts).workers,
        w.batch.length < cfg.batchSize) ∧
    ∀ f ∈ (runPool cfg (initPool T cfg) acts).flushes,
      (f.cause = Cause.full → f.items.length = cfg.batchSize) ∧
      (f.cause ≠ Cause.full →
        1 ≤ f.items.length ∧ f.items.length ≤ cfg.batchSize - 1) := by
  obtain ⟨hw, hf⟩ :=
    runPool_sizeInv cfg hbs acts (initPool T cfg) (initPool_sizeInv cfg hbs)
  refine ⟨hw, fun f hfm => ⟨(hf f hfm).1, fun hne => ?_⟩⟩
  obtain ⟨hge, hle⟩ := (hf f hfm).2 hne
  exact ⟨hge, by omega⟩

/-- **C10**, witness: with `batchSize = 10`, the timer-fired flush of the
single buffered item 5 delivers between 1 and 9 items. -/
theorem worker_flush_size_classes_witness :
    1 ≤ (Flush.items (⟨Cause.timer, FlushCtx.epoch, [5]⟩ : Flush Nat)).length ∧
    (Flush.items (⟨Cause.timer, FlushCtx.epoch, [5]⟩ : Flush Nat)).length
      ≤ exCfg.batchSize - 1 :=
  ((worker_flush_size_classes Nat exCfg actsTimer (by decide)).2
    ⟨Cause.timer, FlushCtx.epoch, [5]⟩ (by decide)).2 (by decide)

end Worker

namespace Worker

variable {T : Type}

theorem flushBatch_nonempty (c : Cause) (fc : FlushCtx) (w : WState T) :
    ∀ f ∈ (flushBatch c fc w).2, f.items ≠ [] := by
  unfold flushBatch
  by_cases hl : w.batch.length = 0
  · simp [hl]
  · simp only [hl, if_false, List.mem_singleton]
    intro f hfm
    subst hfm
    intro he
    simp only at he
    exact hl (by simp [he])

theorem workTimer_nonempty (ft : Nat) (u : WState T) :
    ∀ f ∈ (workTimer ft u).2, f.items ≠ [] := by
  unfold workTimer
  split
  · simp
  · exact flushBatch_nonempty Cause.timer FlushCtx.epoch u

theorem workRecv_nonempty (bs ft : Nat) (x : T) (u : WState T) :
    ∀ f ∈ (workRecv bs ft x u).2, f.items ≠ [] := by
  unfold workRecv
  split
  · simp
  dsimp only
  split
  · exact flushBatch_nonempty Cause.full FlushCtx.epoch _
  · simp

theorem workCancel_nonempty (u : WState T) :
    ∀ f ∈ (workCancel u).2, f.items ≠ [] := by
  unfold workCancel
  split
  · simp
  · exact flushBatch_nonempty Cause.cancel FlushCtx.background u

theorem workClosed_nonempty (u : WState T) :
    ∀ f ∈ (workClosed u).2, f.items ≠ [] := by
  unfold workClosed
  split
  · simp
  · exact flushBatch_nonempty Cause.closed FlushCtx.background u

theorem stepPool_flushes_nonempty (cfg : Config) (p : PoolState T) (a : Action T)
    (h : ∀ f ∈ p.flushes, f.items ≠ []) :
    ∀ f ∈ (stepPool cfg p a).flushes, f.items ≠ [] := by
  have key : ∀ (g : WState T → WState T × List (Flush T)),
      (∀ u, ∀ f ∈ (g u).2, f.items ≠ []) →
      ∀ i, ∀ f ∈ p.flushes ++ (stepWorkerAt p.workers i g).2, f.items ≠ [] := by
    intro g hg i f hmem
    rcases List.mem_append.mp hmem with h1 | h1
    · exact h f h1
    · by_cases hi : i < p.workers.length
      · rw [stepWorkerAt_flushes _ _ _ hi] at h1
        exact hg _ f h1
      · rw [stepWorkerAt_out _ _ _ (Nat.le_of_not_lt hi)] at h1
        simp at h1
  cases a with
  | send x =>
    intro f hfm
    simp only [stepPool] at hfm
    split at hfm
    · exact h f hfm
    split at hfm
    · exact h f hfm
    · exact h f hfm
  | deliver i =>
    intro f hfm
    simp only [stepPool] at hfm
    split at hfm
    · exact h f hfm
    split at hfm
    · exact key _ (workRecv_nonempty cfg.batchSize cfg.flushTimeout _) i f hfm
    · exact h f hfm
  | timerFire i =>
    intro f hfm
    simp only [stepPool] at hfm
    exact key _ (workTimer_nonempty cfg.flushTimeout) i f hfm
  | observeCancel i =>
    intro f hfm
    simp only [stepPool] at hfm
    split at hfm
    · exact key _ workCancel_nonempty i f hfm
    · exact h f hfm
  | observeClosed i =>
    intro f hfm
    simp only [stepPool] at hfm
    split at hfm
    · exact key _ workClosed_nonempty i f hfm
    · exact h f hfm
  | cancelSig => exact h
  | closeInput => exact h

theorem runPool_flushes_nonempty (cfg : Config) :
    ∀ (acts : List (Action T)) (p : PoolState T),
      (∀ f ∈ p.flushes, f.items ≠ []) →
      ∀ f ∈ (runPool cfg p acts).flushes, f.items ≠ []
  | [], _, h => h
  | a :: acts, p, h =>
    runPool_flushes_nonempty cfg acts (stepPool cfg p a)
      (stepPool_flushes_nonempty cfg p a h)

/-- **C9**.  No empty flush: in every execution, on every flush path
(timer fire, batch full, queue closed, cancellation — all four go through
the same `flush` closure, which returns immediately when `len(batch) == 0`),
`process` is never invoked with zero items. -/
theorem worker_no_empty_flush (T : Type) (cfg : Config)
    (acts : List (Action T)) :
    ((runPool cfg (initPool T cfg) acts).flushes.all
      fun f => !f.items.isEmpty) = true := by
  have h := runPool_flushes_nonempty cfg acts (initPool T cfg)
    (by intro f hfm; simp [initPool] at hfm)
  rw [List.all_eq_true]
  intro f hfm
  simpa [List.isEmpty_iff] using h f hfm

end Worker

namespace Worker

variable {T : Type}

theorem flushBatch_tickerRem (c : Cause) (fc : FlushCtx) (w : WState T) :
    (flushBatch c fc w).1.tickerRem = w.tickerRem := by
  unfold flushBatch
  split <;> rfl

/-- **C7**.  When a live worker receives an item from the shared queue,
it resets its idle ticker to `flushTimeout` (the timeout measures idle
time since the last received item), appends the item to its private
batch, and — exactly when the batch has thereby reached `batchSize` —
flushes immediately with the cancellable epoch context (a batch-full
flush); otherwise the batch simply grows and nothing is flushed. -/
theorem worker_recv_resets_timer (cfg : Config) (p : PoolState T) (i : Nat)
    (x : T) (rest : List T) (hq : p.queue = x :: rest)
    (hi : i < p.workers.length) (hd : (getW p.workers i).done = false) :
    (getW (stepPool cfg p (Action.deliver i)).workers i).tickerRem
        = cfg.flushTimeout ∧
    (stepPool cfg p (Action.deliver i)).queue = rest ∧
    (cfg.batchSize ≤ (getW p.workers i).batch.length + 1 →
      (getW (stepPool cfg p (Action.deliver i)).workers i).batch = [] ∧
      (stepPool cfg p (Action.deliver i)).flushes
        = p.flushes ++ [⟨Cause.full, FlushCtx.epoch,
            (getW p.workers i).batch ++ [x]⟩]) ∧
    ((getW p.workers i).batch.length + 1 < cfg.batchSize →
      (getW (stepPool cfg p (Action.deliver i)).workers i).batch
          = (getW p.workers i).batch ++ [x] ∧
      (stepPool cfg p (Action.deliver i)).flushes = p.flushes) := by
  have hstep : stepPool cfg p (Action.deliver i)
      = PoolState.mk rest
          (stepWorkerAt p.workers i
            (workRecv cfg.batchSize cfg.flushTimeout x)).1
          p.cancelled p.closed
          (p.flushes ++ (stepWorkerAt p.workers i
            (workRecv cfg.batchSize cfg.flushTimeout x)).2)
          p.sent := by
    simp only [stepPool, hq]
    rw [if_pos ⟨hi, hd⟩]
  have hself := getW_stepWorkerAt_self
    (workRecv cfg.batchSize cfg.flushTimeout x) p.workers i hi
  have hfl := stepWorkerAt_flushes
    (workRecv cfg.batchSize cfg.flushTimeout x) p.workers i hi
  rw [hstep]
  dsimp only
  rw [hself, hfl]
  by_cases hb : cfg.batchSize ≤ (getW p.workers i).batch.length + 1
  · have hval : workRecv cfg.batchSize cfg.flushTimeout x (getW p.workers i)
        = ({ batch := [], tickerRem := cfg.flushTimeout, done := false },
           [⟨Cause.full, FlushCtx.epoch, (getW p.workers i).batch ++ [x]⟩]) := by
      unfold workRecv flushBatch
      simp [hd, hb]
    rw [hval]
    exact ⟨rfl, rfl, fun _ => ⟨rfl, rfl⟩, fun hlt => absurd hb (by omega)⟩
  · have hval : workRecv cfg.batchSize cfg.flushTimeout x (getW p.workers i)
        = ({ batch := (getW p.workers i).batch ++ [x],
             tickerRem := cfg.flushTimeout, done := false }, []) := by
      unfold workRecv
      simp [hd, hb]
    rw [hval]
    exact ⟨rfl, rfl, fun hb2 => absurd hb2 hb, fun _ => ⟨rfl, by simp⟩⟩

/-- **C7**, witness: a worker holding item 4 with `batchSize = 2` receives
item 5; its ticker resets to the flush timeout (9) and the batch-full
flush empties its batch. -/
theorem worker_recv_resets_timer_witness :
    (getW (stepPool exCfg2 exPoolC7 (Action.deliver 0)).workers 0).tickerRem
        = exCfg2.flushTimeout ∧
    (getW (stepPool exCfg2 exPoolC7 (Action.deliver 0)).workers 0).batch = [] :=
  ⟨(worker_recv_resets_timer exCfg2 exPoolC7 0 5 [] rfl (by decide) (by decide)).1,
   ((worker_recv_resets_timer exCfg2 exPoolC7 0 5 [] rfl (by decide)
      (by decide)).2.2.1 (by decide)).1⟩

end Worker

namespace Worker

/-- **C5**, counterexample: the claim says invalid configuration is
rejected fail-fast at construction, but `New` with `workerCount = 0`,
`batchSize = 0`, `flushTimeout = 0` succeeds and stores the invalid
values verbatim, while the spec-modelled checking constructor
`NewChecked` rejects exactly this input. -/
theorem worker_new_unvalidated :
    New 0 0 0 0 = some ⟨0, 0, 0, 0, true, 0, 0⟩ ∧
    NewChecked 0 0 0 0
      = Except.error "worker pool: invalid configuration" := by
  exact ⟨rfl, rfl⟩

/-- **C5** (amended).  `New` is a bare struct literal: it performs no
validation and never fails for any worker count, batch size, or flush
timeout — zero and negative values included, all stored verbatim (the
only possible construction failure is the runtime fault of
`make(chan T, n)` on a negative buffer size).  Invalid configuration is
silently accepted and left as the caller's responsibility, not rejected
at construction. -/
theorem worker_new_accepts_any_config (a b c d : Int) (h : 0 ≤ a) :
    New a b c d = some ⟨a, b, c, d, true, 0, 0⟩ := by
  unfold New
  rw [if_neg (by omega)]

/-- **C5**, witness: a zero worker count, negative batch size and zero
timeout are accepted unchanged. -/
theorem worker_new_accepts_any_config_witness :
    New 2 0 (-3) 0 = some ⟨2, 0, -3, 0, true, 0, 0⟩ :=
  worker_new_accepts_any_config 2 0 (-3) 0 (by decide)

/-- **C6**, counterexample: `Stop` installs a fresh `&sync.Once{}` (the
start-guard generation changes) but never touches `w.wg` — the WaitGroup
generation after `Stop` equals the one before, so the completion barrier
is reused, not replaced, contradicting the claim that both are
replaced on every `Stop`. -/
theorem worker_stop_keeps_waitgroup :
    (stopLife exLife).wgGen = exLife.wgGen ∧
    (stopLife exLife).onceGen ≠ exLife.onceGen := by
  decide

/-- **C6** (amended).  On every `Stop` the start-guard is replaced (and
marked unused), so a subsequent `Start` begins a fresh epoch whose
`once.Do` body derives a fresh cancellation handle; the completion
barrier WaitGroup however is reused across epochs — sound only because
its counter is back to zero when `Stop` returns. -/
theorem worker_stop_fresh_epoch (s : LifeState) (wc : Nat) :
    (stopLife s).onceGen = s.onceGen + 1 ∧
    (stopLife s).onceUsed = false ∧
    (stopLife s).wgGen = s.wgGen ∧
    (stopLife s).activeWorkers = 0 ∧
    (startEpoch wc (stopLife s)).cancelId = some s.nextCancelId ∧
    (startEpoch wc (stopLife s)).nextCancelId = s.nextCancelId + 1 := by
  refine ⟨rfl, rfl, rfl, rfl, ?_, ?_⟩ <;> simp [startEpoch, stopLife]

theorem startEpoch_onceUsed (wc : Nat) (s : LifeState) :
    (startEpoch wc s).onceUsed = true := by
  unfold startEpoch
  by_cases hu : s.onceUsed <;> simp [hu]

theorem startEpoch_idem (wc : Nat) (s : LifeState) :
    startEpoch wc (startEpoch wc s) = startEpoch wc s := by
  unfold startEpoch
  by_cases hu : s.onceUsed <;> simp [hu]

/-- **C8**.  `start` is idempotent per epoch: any number of repeated
`Start` calls within one epoch has exactly the effect of the first —
the once-guard makes later calls no-ops — and the single effective call
adds exactly `workerCount` workers to the epoch's completion barrier. -/
theorem worker_start_idempotent (wc : Nat) (s : LifeState) :
    (∀ n : Nat, (startEpoch wc)^[n + 1] s = startEpoch wc s) ∧
    (s.onceUsed = false →
      (startEpoch wc s).activeWorkers = s.activeWorkers + wc) := by
  constructor
  · intro n
    induction n with
    | zero => rfl
    | succ m ih =>
      rw [Function.iterate_succ_apply', ih]
      exact startEpoch_idem wc s
  · intro hu
    unfold startEpoch
    simp [hu]

/-- **C8**, witness: starting a fresh pool twice equals starting it once,
and the one effective start launches all 3 workers. -/
theorem worker_start_idempotent_witness :
    (startEpoch 3)^[2] exLife0 = startEpoch 3 exLife0 ∧
    (startEpoch 3 exLife0).activeWorkers = exLife0.activeWorkers + 3 :=
  ⟨(worker_start_idempotent 3 exLife0).1 1,
   (worker_start_idempotent 3 exLife0).2 rfl⟩

/-- **C4** fails on the code (code bug): with `batchSize = 1` the worker
receives item 10; the batch-full flush hands `process` the slice header
over the batch's backing array, which reads `[10]` at call time.  Then
`batch = batch[:0]` keeps the same backing array and the next
`append(batch, 20)` writes into the very cell the delivered slice views,
so the batch handed to `process` now reads `[20]`: the pool mutates a
delivered batch after its flush (no copy, no immutable view). -/
theorem worker_flush_aliases_backing :
    recvBuf 1 (⟨[0], 0⟩ : GoBuf Nat) 10 = (⟨[10], 0⟩, some 1) ∧
    view (bufAppend (⟨[0], 0⟩ : GoBuf Nat) 10) 1 = [10] ∧
    recvBuf 1 (⟨[10], 0⟩ : GoBuf Nat) 20 = (⟨[20], 0⟩, some 1) ∧
    view ((recvBuf 1 (⟨[10], 0⟩ : GoBuf Nat) 20).1) 1 = [20] ∧
    view (bufAppend (⟨[0], 0⟩ : GoBuf Nat) 10) 1
      ≠ view ((recvBuf 1 (⟨[10], 0⟩ : GoBuf Nat) 20).1) 1 := by
  decide

end Worker
